import Mathlib

/-
Verification of the QUEUE_LIB generic FIFO ring buffer
(src/lib/queue/queue.c, version 1.0.3) against its specification.

Shallow-embedding conventions:
  - C `uint16_t` / `uint32_t` values are modelled as `Nat`; the truncating
    casts of the source are written as explicit `% 65536` / `% 4294967296`.
  - A C pointer that may be NULL is modelled as an `Option`.
  - The `void *buffer` field of `queue_t` stores a pointer.  The embedding
    keeps the pointer value in the field `buffer` and the bytes of the
    region it addresses in the auxiliary field `mem` (`mem o` is the byte
    at offset `o` from the start of the backing buffer).
  - The element handed to `queue_push`, and the memory behind the out
    pointer of `queue_pop`, are byte regions modelled as `Nat → Nat`.
-/

/-- Status codes of queue.h: QUEUE_OK, QUEUE_FULL, QUEUE_EMPTY, QUEUE_ERROR. -/
inductive queue_status_t where
  | QUEUE_OK
  | QUEUE_FULL
  | QUEUE_EMPTY
  | QUEUE_ERROR
deriving DecidableEq, Repr

open queue_status_t

/-- The queue control structure of queue.h.  `buffer` is the stored pointer
value (opaque in the model); `mem` models the byte contents of the region
that pointer addresses, indexed from the start of the buffer. -/
structure queue_t where
  buffer : Nat
  mem : Nat → Nat
  buffer_element_size : Nat
  capacity : Nat
  head : Nat
  tail : Nat
  count : Nat

/-- A non-NULL buffer argument to queue_init: the pointer value together
with the bytes of the region it addresses. -/
structure buffer_ref where
  addr : Nat
  bytes : Nat → Nat

/-- copy_bytes (queue.c, internal helper): byte-wise copy of `size` bytes of
`src` into the region `dst` starting at offset `off` (the C call sites pass
`&base[off]` as the destination pointer).  The loop `for i in [0, size)`
performs `dst[off + i] = src[i]`.  The defensive NULL guard of the C helper
is not modelled: both call sites, queue_push and queue_pop, have already
checked their pointers when they call it. -/
def copy_bytes (dst : Nat → Nat) (off : Nat) (src : Nat → Nat) : Nat → Nat → Nat
  | 0, a => dst a
  | size + 1, a =>
    if a = off + size then src size else copy_bytes dst off src size a

/-- The slot-offset computation shared by queue_push (line 79) and queue_pop
(line 106): `(uint32_t)index * (uint32_t)q->buffer_element_size`, a product
of two uint16 values carried out in uint32. -/
def slot_offset (index esize : Nat) : Nat :=
  (index * esize) % 4294967296

/-- validate_init_arg (queue.c lines 193..206): true exactly when some
initialization argument is invalid. -/
def validate_init_arg (q : Option queue_t) (buffer : Option buffer_ref)
    (buffer_element_size queue_capacity : Nat) : Bool :=
  q.isNone || buffer.isNone || buffer_element_size == 0 || queue_capacity == 0

/-- queue_init (queue.c lines 42..61). -/
def queue_init (q : Option queue_t) (buffer : Option buffer_ref)
    (buffer_element_size queue_capacity : Nat) :
    queue_status_t × Option queue_t :=
  if validate_init_arg q buffer buffer_element_size queue_capacity then
    (QUEUE_ERROR, q)
  else
    match buffer with
    | some b =>
      (QUEUE_OK, some {
          buffer := b.addr,
          mem := b.bytes,
          buffer_element_size := buffer_element_size,
          capacity := queue_capacity,
          head := 0,
          tail := 0,
          count := 0 })
    | none => (QUEUE_ERROR, q)  -- unreachable: validate_init_arg rejects a NULL buffer

/-- queue_push (queue.c lines 63..88).  Returns the status together with the
updated queue state (the state behind the `q` pointer; unchanged on every
failure path). -/
def queue_push (q : Option queue_t) (item : Option (Nat → Nat)) :
    queue_status_t × Option queue_t :=
  match q, item with
  | some qv, some iv =>
    if qv.capacity ≤ qv.count then
      (QUEUE_FULL, some qv)
    else
      (QUEUE_OK, some { qv with
          mem := copy_bytes qv.mem
            (slot_offset qv.tail qv.buffer_element_size) iv qv.buffer_element_size,
          tail := ((qv.tail + 1) % qv.capacity) % 65536,
          count := (qv.count + 1) % 65536 })
  | _, _ => (QUEUE_ERROR, q)

/-- queue_pop (queue.c lines 90..115).  Returns the status, the updated queue
state, and the updated contents of the out-item region.  In the success
branch the uint32 subtraction `count - 1` is exact because the branch has
`count != 0`. -/
def queue_pop (q : Option queue_t) (item : Option (Nat → Nat)) :
    queue_status_t × Option queue_t × Option (Nat → Nat) :=
  match q, item with
  | some qv, some iv =>
    if qv.count = 0 then
      (QUEUE_EMPTY, some qv, some iv)
    else
      (QUEUE_OK,
       some { qv with
           head := ((qv.head + 1) % qv.capacity) % 65536,
           count := (qv.count - 1) % 65536 },
       some (copy_bytes iv 0
         (fun i => qv.mem (slot_offset qv.head qv.buffer_element_size + i))
         qv.buffer_element_size))
  | _, _ => (QUEUE_ERROR, q, item)

/-- queue_is_empty (queue.c lines 117..127). -/
def queue_is_empty (q : Option queue_t) : Bool :=
  match q with
  | none => true
  | some qv => qv.count == 0

/-- queue_is_full (queue.c lines 129..139). -/
def queue_is_full (q : Option queue_t) : Bool :=
  match q with
  | none => false
  | some qv => qv.count == qv.capacity

/-- The first `size` bytes of a byte region, as a list. -/
def itemBytes (size : Nat) (item : Nat → Nat) : List Nat :=
  (List.range size).map item

/-- The bytes stored in slot `slot` of a queue's backing buffer. -/
def slotBytes (q : queue_t) (slot : Nat) : List Nat :=
  (List.range q.buffer_element_size).map
    (fun i => q.mem (slot * q.buffer_element_size + i))

/-- Abstraction function: the logical contents of the queue, oldest first —
the `count` stored elements read from slot `head` onwards, wrapping modulo
`capacity`. -/
def absQueue (q : queue_t) : List (List Nat) :=
  (List.range q.count).map (fun k => slotBytes q ((q.head + k) % q.capacity))

/-- State invariant maintained by the queue operations after a successful
initialization with uint16 arguments: capacity is a nonzero uint16, the
element size is a uint16, the indices are in range, and `tail` is the slot
`count` places after `head`. -/
def queue_inv (q : queue_t) : Prop :=
  1 ≤ q.capacity ∧ q.capacity ≤ 65535 ∧ q.buffer_element_size ≤ 65535 ∧
  q.count ≤ q.capacity ∧ q.head < q.capacity ∧ q.tail < q.capacity ∧
  q.tail = (q.head + q.count) % q.capacity

/-- A client call on an initialized queue: a queue_push of the byte region
`item`, or a queue_pop (into a scratch out region). -/
inductive op_t where
  | push (item : Nat → Nat)
  | pop

/-- Run a sequence of queue_push / queue_pop calls against a queue state.
Returns the final state, the byte vectors (of the then-current element
size) given to the pushes that returned QUEUE_OK, in order, and the byte
vectors returned by the pops that returned QUEUE_OK, in order.  A failing
call leaves the state unchanged, so the run continues on the same state. -/
def run_queue : queue_t → List op_t → queue_t × List (List Nat) × List (List Nat)
  | q, [] => (q, [], [])
  | q, op_t.push item :: ops =>
    let r := queue_push (some q) (some item)
    if r.1 = QUEUE_OK then
      let rest := run_queue (r.2.getD q) ops
      (rest.1, itemBytes q.buffer_element_size item :: rest.2.1, rest.2.2)
    else
      run_queue q ops
  | q, op_t.pop :: ops =>
    let r := queue_pop (some q) (some (fun _ => 0))
    if r.1 = QUEUE_OK then
      let rest := run_queue ((r.2.1).getD q) ops
      (rest.1, rest.2.1,
       itemBytes q.buffer_element_size ((r.2.2).getD (fun _ => 0)) :: rest.2.2)
    else
      run_queue q ops

example :
    (run_queue ⟨0, fun _ => 0, 1, 2, 0, 0, 0⟩
      [op_t.push (fun _ => 5), op_t.push (fun _ => 7), op_t.push (fun _ => 9),
       op_t.pop, op_t.push (fun _ => 9), op_t.pop, op_t.pop, op_t.pop]).2.2
    = [[5], [7], [9]] := by decide

example :
    (run_queue ⟨0, fun _ => 0, 1, 2, 0, 0, 0⟩
      [op_t.push (fun _ => 5), op_t.push (fun _ => 7), op_t.push (fun _ => 9),
       op_t.pop, op_t.push (fun _ => 9), op_t.pop, op_t.pop, op_t.pop]).2.1
    = [[5], [7], [9]] := by decide

/-- The state after a queue_push call on a non-null queue (the call target
of `run_queue`; on failure the state is unchanged). -/
def push1 (q : queue_t) (item : Nat → Nat) : queue_t :=
  ((queue_push (some q) (some item)).2).getD q

/-- The state after a queue_pop call on a non-null queue. -/
def pop1 (q : queue_t) : queue_t :=
  ((queue_pop (some q) (some (fun _ => 0))).2.1).getD q

/-- The out-region contents after a queue_pop call on a non-null queue. -/
def popOut (q : queue_t) : Nat → Nat :=
  ((queue_pop (some q) (some (fun _ => 0))).2.2).getD (fun _ => 0)

/-
Theorems.
-/

/-- Helper: a successful queue_init with non-NULL arguments pins down the
resulting state and forces both uint16 arguments to be nonzero. -/
theorem queue_init_ok_state (qp : queue_t) (b : buffer_ref) (E C : Nat)
    (q0 : queue_t)
    (h : queue_init (some qp) (some b) E C = (QUEUE_OK, some q0)) :
    q0 = ⟨b.addr, b.bytes, E, C, 0, 0, 0⟩ ∧ 1 ≤ E ∧ 1 ≤ C := by
  by_cases hE : E = 0
  · simp [queue_init, validate_init_arg, hE] at h
  · by_cases hC : C = 0
    · simp [queue_init, validate_init_arg, hC] at h
    · simp [queue_init, validate_init_arg, hE, hC] at h
      exact ⟨h.symm, Nat.one_le_iff_ne_zero.mpr hE, Nat.one_le_iff_ne_zero.mpr hC⟩

/-- C5: queue_init returns QUEUE_ERROR exactly when the queue reference is
null, the buffer reference is null, the element size is zero, or the
capacity is zero; in every such failing case the queue state is returned
untouched (the second component is the input state `q` itself). -/
theorem queue_init_validation (q : Option queue_t) (b : Option buffer_ref)
    (sz cap : Nat) :
    ((queue_init q b sz cap).1 = QUEUE_ERROR ↔
      q = none ∨ b = none ∨ sz = 0 ∨ cap = 0)
    ∧ ((queue_init q b sz cap).1 = QUEUE_ERROR → (queue_init q b sz cap).2 = q) := by
  rcases q with _ | qv <;> rcases b with _ | bv <;>
    by_cases hsz : sz = 0 <;> by_cases hcap : cap = 0 <;>
    simp [queue_init, validate_init_arg, hsz, hcap]

/-- C6: re-initialization with valid arguments succeeds and resets the whole
state — it binds the given buffer pointer and contents, stores the element
size and capacity, and zeroes head, tail and count, regardless of every
prior field value. -/
theorem queue_init_reset (qprior : queue_t) (b : buffer_ref) (sz cap : Nat)
    (hsz : 1 ≤ sz) (hcap : 1 ≤ cap) :
    queue_init (some qprior) (some b) sz cap
      = (QUEUE_OK, some ⟨b.addr, b.bytes, sz, cap, 0, 0, 0⟩) := by
  have h1 : sz ≠ 0 := by omega
  have h2 : cap ≠ 0 := by omega
  simp [queue_init, validate_init_arg, h1, h2]

/-- C6 witness: re-initializing a concrete in-use queue (head 1, tail 0,
count 2) with a fresh buffer yields the freshly reset state. -/
theorem queue_init_reset_witness :
    queue_init (some ⟨7, fun _ => 3, 4, 5, 1, 0, 2⟩) (some ⟨9, fun _ => 0⟩) 2 3
      = (QUEUE_OK, some ⟨9, fun _ => 0, 2, 3, 0, 0, 0⟩) :=
  queue_init_reset ⟨7, fun _ => 3, 4, 5, 1, 0, 2⟩ ⟨9, fun _ => 0⟩ 2 3
    (by decide) (by decide)

/-- C7: queue_is_empty is true exactly when the reference is null or the
count is zero; queue_is_full is true exactly when the reference is non-null
and the count equals the capacity (a null reference yields not-full).  Both
observers are pure functions of the state — they return only a Bool and
produce no updated state, so they modify nothing. -/
theorem queue_observers (q : Option queue_t) :
    (queue_is_empty q = true ↔ q = none ∨ ∃ qv, q = some qv ∧ qv.count = 0)
    ∧ (queue_is_full q = true ↔ ∃ qv, q = some qv ∧ qv.count = qv.capacity) := by
  rcases q with _ | qv <;> simp [queue_is_empty, queue_is_full]

/-- C8: the uint32 offset computation shared by queue_push and queue_pop is
exact — for uint16 index and element size the product never reaches 2^32,
so the reduction modulo 2^32 is the identity and the byte offset equals the
mathematical product. -/
theorem slot_offset_exact (index esize : Nat)
    (hi : index ≤ 65535) (he : esize ≤ 65535) :
    slot_offset index esize = index * esize := by
  unfold slot_offset
  apply Nat.mod_eq_of_lt
  calc index * esize ≤ 65535 * 65535 := Nat.mul_le_mul hi he
    _ < 4294967296 := by norm_num

/-- C8 witness: at the extreme uint16 corner the offset is the exact
product. -/
theorem slot_offset_exact_witness :
    (65535 : Nat) ≤ 65535 ∧ slot_offset 65535 65535 = 65535 * 65535 :=
  ⟨by decide, slot_offset_exact 65535 65535 (by decide) (by decide)⟩

/-- C10: queue_push tests `count >= capacity`, so on any state with count at
or above capacity — including corrupted states with count strictly greater
— a call with non-null references returns QUEUE_FULL and leaves the state
exactly as it was. -/
theorem queue_push_defensive_full (qv : queue_t) (item : Nat → Nat)
    (h : qv.capacity ≤ qv.count) :
    queue_push (some qv) (some item) = (QUEUE_FULL, some qv) := by
  simp [queue_push, h]

/-- C10 witness: a corrupted state with count 2 and capacity 1 is rejected
with QUEUE_FULL and returned unchanged. -/
theorem queue_push_defensive_full_witness :
    queue_push (some ⟨0, fun _ => 0, 1, 1, 0, 0, 2⟩) (some (fun _ => 0))
      = (QUEUE_FULL, some ⟨0, fun _ => 0, 1, 1, 0, 0, 2⟩) :=
  queue_push_defensive_full ⟨0, fun _ => 0, 1, 1, 0, 0, 2⟩ (fun _ => 0) (by decide)

/-- C3 counterexample: on the (corrupted, API-unreachable) state with
capacity 1 and count 2, queue_push returns QUEUE_FULL although count does
not equal capacity — so "returns QUEUE_FULL exactly when count == capacity"
is false when quantified over every queue state. -/
theorem queue_push_full_iff_counterexample :
    (queue_push (some ⟨0, fun _ => 0, 1, 1, 0, 0, 2⟩) (some (fun _ => 0))).1
        = QUEUE_FULL
    ∧ (queue_t.mk 0 (fun _ => 0) 1 1 0 0 2).count
        ≠ (queue_t.mk 0 (fun _ => 0) 1 1 0 0 2).capacity := by
  constructor
  · rfl
  · decide

/-- C3 (amended: QUEUE_FULL exactly when count >= capacity): queue_push
returns QUEUE_ERROR exactly when the queue or item reference is null;
otherwise it returns QUEUE_FULL exactly when count >= capacity; on every
non-OK outcome the returned state is the input state itself, so head, tail,
count and the buffer contents are unchanged; otherwise it returns QUEUE_OK. -/
theorem queue_push_contract (q : Option queue_t) (item : Option (Nat → Nat)) :
    ((queue_push q item).1 = QUEUE_ERROR ↔ q = none ∨ item = none)
    ∧ ((queue_push q item).1 ≠ QUEUE_OK → (queue_push q item).2 = q)
    ∧ (∀ qv iv, q = some qv → item = some iv →
        (((queue_push q item).1 = QUEUE_FULL ↔ qv.capacity ≤ qv.count)
         ∧ ((queue_push q item).1 = QUEUE_OK ↔ qv.count < qv.capacity))) := by
  rcases q with _ | qv <;> rcases item with _ | iv <;>
    simp [queue_push]
  by_cases h : qv.capacity ≤ qv.count
  · simp [h]
  · simp [h]
    omega

/-- C3 witness: the amended contract applied at a null queue reference. -/
theorem queue_push_contract_witness :
    (queue_push (none : Option queue_t) (some (fun _ => 0))).1 = QUEUE_ERROR :=
  (queue_push_contract none (some (fun _ => 0))).1.mpr (Or.inl rfl)

/-- C4: queue_pop returns QUEUE_ERROR exactly when the queue or output
reference is null; otherwise it returns QUEUE_EMPTY exactly when count is
zero; on every non-OK outcome both the returned queue state and the
returned out-item region are the inputs themselves, so head, tail, count,
the buffer contents and every byte of the output are unchanged; otherwise
it returns QUEUE_OK. -/
theorem queue_pop_contract (q : Option queue_t) (item : Option (Nat → Nat)) :
    ((queue_pop q item).1 = QUEUE_ERROR ↔ q = none ∨ item = none)
    ∧ ((queue_pop q item).1 ≠ QUEUE_OK →
        (queue_pop q item).2.1 = q ∧ (queue_pop q item).2.2 = item)
    ∧ (∀ qv iv, q = some qv → item = some iv →
        (((queue_pop q item).1 = QUEUE_EMPTY ↔ qv.count = 0)
         ∧ ((queue_pop q item).1 = QUEUE_OK ↔ qv.count ≠ 0))) := by
  rcases q with _ | qv <;> rcases item with _ | iv <;>
    simp [queue_pop]
  by_cases h : qv.count = 0 <;> simp [h]

/-- C4 witness: the contract applied at a null output reference. -/
theorem queue_pop_contract_witness :
    (queue_pop (some ⟨0, fun _ => 0, 1, 1, 0, 0, 0⟩) none).1 = QUEUE_ERROR :=
  (queue_pop_contract (some ⟨0, fun _ => 0, 1, 1, 0, 0, 0⟩) none).1.mpr
    (Or.inr rfl)

/-- C5 witness: the validation contract applied to an all-invalid call. -/
theorem queue_init_validation_witness :
    (queue_init none none 0 0).1 = QUEUE_ERROR :=
  (queue_init_validation none none 0 0).1.mpr (Or.inl rfl)

/-- C7 witness: the observer contract applied at a null reference. -/
theorem queue_observers_witness : queue_is_empty none = true :=
  (queue_observers none).1.mpr (Or.inl rfl)

/-- Helper: pointwise description of copy_bytes — inside the written window
the destination holds the source bytes, outside it is untouched. -/
theorem copy_bytes_eval (dst src : Nat → Nat) (off size a : Nat) :
    copy_bytes dst off src size a
      = if off ≤ a ∧ a < off + size then src (a - off) else dst a := by
  induction size with
  | zero =>
    simp only [copy_bytes]
    rw [if_neg (by omega)]
  | succ n ih =>
    simp only [copy_bytes, ih]
    by_cases h : a = off + n
    · simp [h]
    · by_cases h2 : off ≤ a ∧ a < off + n
      · rw [if_neg h, if_pos h2, if_pos ⟨h2.1, by omega⟩]
      · rw [if_neg h, if_neg h2, if_neg (by omega)]

/-- Helper, internal form of the offset exactness: for uint16 index and
element size the uint32 product does not wrap. -/
theorem slot_offset_mul (index esize : Nat)
    (hi : index ≤ 65535) (he : esize ≤ 65535) :
    slot_offset index esize = index * esize := by
  unfold slot_offset
  apply Nat.mod_eq_of_lt
  calc index * esize ≤ 65535 * 65535 := Nat.mul_le_mul hi he
    _ < 4294967296 := by norm_num

/-- Helper: two in-slot byte addresses can only coincide within one slot. -/
theorem slot_addr_eq (s t i E : Nat) (hi : i < E)
    (h1 : t * E ≤ s * E + i) (h2 : s * E + i < t * E + E) : s = t := by
  have hE : 0 < E := by omega
  have hs : s * E < (t + 1) * E := by
    calc s * E ≤ s * E + i := Nat.le_add_right _ _
      _ < t * E + E := h2
      _ = (t + 1) * E := by ring
  have ht : t * E < (s + 1) * E := by
    calc t * E ≤ s * E + i := h1
      _ < s * E + E := by omega
      _ = (s + 1) * E := by ring
  have hs' : s < t + 1 := Nat.lt_of_mul_lt_mul_right hs
  have ht' : t < s + 1 := Nat.lt_of_mul_lt_mul_right ht
  omega

/-- Helper: shifting by distinct amounts below the modulus lands on
distinct residues. -/
theorem mod_shift_ne (head k n C : Nat) (hk : k < n) (hn : n < C) :
    (head + k) % C ≠ (head + n) % C := by
  intro h
  have h2 : k % C = n % C := Nat.ModEq.add_left_cancel' head h
  rw [Nat.mod_eq_of_lt (by omega), Nat.mod_eq_of_lt hn] at h2
  omega

/-- Helper: the queue_push success equation. -/
theorem queue_push_ok_eq (qv : queue_t) (iv : Nat → Nat)
    (h : qv.count < qv.capacity) :
    queue_push (some qv) (some iv)
      = (QUEUE_OK, some { qv with
          mem := copy_bytes qv.mem
            (slot_offset qv.tail qv.buffer_element_size) iv qv.buffer_element_size,
          tail := ((qv.tail + 1) % qv.capacity) % 65536,
          count := (qv.count + 1) % 65536 }) := by
  have h' : ¬ qv.capacity ≤ qv.count := by omega
  simp [queue_push, h']

/-- Helper: the queue_push full-failure equation. -/
theorem queue_push_full_eq (qv : queue_t) (iv : Nat → Nat)
    (h : qv.capacity ≤ qv.count) :
    queue_push (some qv) (some iv) = (QUEUE_FULL, some qv) := by
  simp [queue_push, h]

/-- Helper: the queue_pop success equation. -/
theorem queue_pop_ok_eq (qv : queue_t) (iv : Nat → Nat)
    (h : qv.count ≠ 0) :
    queue_pop (some qv) (some iv)
      = (QUEUE_OK,
         some { qv with
             head := ((qv.head + 1) % qv.capacity) % 65536,
             count := (qv.count - 1) % 65536 },
         some (copy_bytes iv 0
           (fun i => qv.mem (slot_offset qv.head qv.buffer_element_size + i))
           qv.buffer_element_size)) := by
  simp [queue_pop, h]

/-- Helper: the queue_pop empty-failure equation. -/
theorem queue_pop_empty_eq (qv : queue_t) (iv : Nat → Nat)
    (h : qv.count = 0) :
    queue_pop (some qv) (some iv) = (QUEUE_EMPTY, some qv, some iv) := by
  simp [queue_pop, h]

/-- Helper: explicit form of push1 on a successful push. -/
theorem push1_ok (q : queue_t) (item : Nat → Nat) (h : q.count < q.capacity) :
    push1 q item
      = { q with
          mem := copy_bytes q.mem
            (slot_offset q.tail q.buffer_element_size) item q.buffer_element_size,
          tail := ((q.tail + 1) % q.capacity) % 65536,
          count := (q.count + 1) % 65536 } := by
  rw [push1, queue_push_ok_eq q item h]
  rfl

/-- Helper: explicit form of pop1 on a successful pop. -/
theorem pop1_ok (q : queue_t) (h : q.count ≠ 0) :
    pop1 q
      = { q with
          head := ((q.head + 1) % q.capacity) % 65536,
          count := (q.count - 1) % 65536 } := by
  rw [pop1, queue_pop_ok_eq q _ h]
  rfl

/-- Helper: explicit form of popOut on a successful pop. -/
theorem popOut_ok (q : queue_t) (h : q.count ≠ 0) :
    popOut q
      = copy_bytes (fun _ => 0) 0
          (fun i => q.mem (slot_offset q.head q.buffer_element_size + i))
          q.buffer_element_size := by
  rw [popOut, queue_pop_ok_eq q _ h]
  rfl

/-- Helper: run_queue unfolding for a successful push. -/
theorem run_queue_push_ok (q : queue_t) (item : Nat → Nat) (ops : List op_t)
    (h : q.count < q.capacity) :
    run_queue q (op_t.push item :: ops)
      = ((run_queue (push1 q item) ops).1,
         itemBytes q.buffer_element_size item
           :: (run_queue (push1 q item) ops).2.1,
         (run_queue (push1 q item) ops).2.2) := by
  simp only [run_queue, push1, queue_push_ok_eq q item h]
  simp

/-- Helper: run_queue unfolding for a failing push. -/
theorem run_queue_push_full (q : queue_t) (item : Nat → Nat) (ops : List op_t)
    (h : q.capacity ≤ q.count) :
    run_queue q (op_t.push item :: ops) = run_queue q ops := by
  simp only [run_queue, queue_push_full_eq q item h]
  simp

/-- Helper: run_queue unfolding for a successful pop. -/
theorem run_queue_pop_ok (q : queue_t) (ops : List op_t)
    (h : q.count ≠ 0) :
    run_queue q (op_t.pop :: ops)
      = ((run_queue (pop1 q) ops).1,
         (run_queue (pop1 q) ops).2.1,
         itemBytes q.buffer_element_size (popOut q)
           :: (run_queue (pop1 q) ops).2.2) := by
  simp only [run_queue, pop1, popOut, queue_pop_ok_eq q _ h]
  simp

/-- Helper: run_queue unfolding for a failing pop. -/
theorem run_queue_pop_empty (q : queue_t) (ops : List op_t)
    (h : q.count = 0) :
    run_queue q (op_t.pop :: ops) = run_queue q ops := by
  simp only [run_queue, queue_pop_empty_eq q _ h]
  simp

/-- Helper: a successful push preserves the state invariant. -/
theorem push1_inv (q : queue_t) (item : Nat → Nat)
    (hinv : queue_inv q) (hlt : q.count < q.capacity) :
    queue_inv (push1 q item) := by
  obtain ⟨h1, h2, h3, h4, h5, h6, h7⟩ := hinv
  rw [push1_ok q item hlt]
  have e1 : (q.count + 1) % 65536 = q.count + 1 := Nat.mod_eq_of_lt (by omega)
  have e2 : (q.tail + 1) % q.capacity < q.capacity := Nat.mod_lt _ (by omega)
  have e3 : ((q.tail + 1) % q.capacity) % 65536 = (q.tail + 1) % q.capacity :=
    Nat.mod_eq_of_lt (by omega)
  refine ⟨h1, h2, h3, by simp [e1]; omega, h5, by simp [e3]; exact e2, ?_⟩
  simp only [e1, e3]
  rw [h7, Nat.mod_add_mod, Nat.add_assoc]

/-- Helper: a successful pop preserves the state invariant. -/
theorem pop1_inv (q : queue_t)
    (hinv : queue_inv q) (hne : q.count ≠ 0) :
    queue_inv (pop1 q) := by
  obtain ⟨h1, h2, h3, h4, h5, h6, h7⟩ := hinv
  rw [pop1_ok q hne]
  have e1 : (q.count - 1) % 65536 = q.count - 1 := Nat.mod_eq_of_lt (by omega)
  have e2 : (q.head + 1) % q.capacity < q.capacity := Nat.mod_lt _ (by omega)
  have e3 : ((q.head + 1) % q.capacity) % 65536 = (q.head + 1) % q.capacity :=
    Nat.mod_eq_of_lt (by omega)
  refine ⟨h1, h2, h3, by simp [e1]; omega, by simp [e3]; exact e2, h6, ?_⟩
  simp only [e1, e3]
  rw [h7, Nat.mod_add_mod]
  congr 1
  omega

/-- Helper: the state invariant holds after any sequence of push/pop calls. -/
theorem run_queue_inv (ops : List op_t) :
    ∀ q : queue_t, queue_inv q → queue_inv (run_queue q ops).1 := by
  induction ops with
  | nil =>
    intro q h
    simpa [run_queue] using h
  | cons op ops ih =>
    intro q h
    cases op with
    | push item =>
      by_cases hlt : q.count < q.capacity
      · rw [run_queue_push_ok q item ops hlt]
        exact ih _ (push1_inv q item h hlt)
      · rw [run_queue_push_full q item ops (by omega)]
        exact ih _ h
    | pop =>
      by_cases hne : q.count = 0
      · rw [run_queue_pop_empty q ops hne]
        exact ih _ h
      · rw [run_queue_pop_ok q ops hne]
        exact ih _ (pop1_inv q h hne)

/-- Helper: the configuration fields — the stored buffer pointer, the
element size and the capacity — are constant along any run. -/
theorem run_queue_config (ops : List op_t) :
    ∀ q : queue_t,
      ((run_queue q ops).1).buffer = q.buffer
      ∧ ((run_queue q ops).1).buffer_element_size = q.buffer_element_size
      ∧ ((run_queue q ops).1).capacity = q.capacity := by
  induction ops with
  | nil =>
    intro q
    simp [run_queue]
  | cons op ops ih =>
    intro q
    cases op with
    | push item =>
      by_cases hlt : q.count < q.capacity
      · rw [run_queue_push_ok q item ops hlt]
        simp only [push1_ok q item hlt]
        simpa using ih _
      · rw [run_queue_push_full q item ops (by omega)]
        exact ih q
    | pop =>
      by_cases hne : q.count = 0
      · rw [run_queue_pop_empty q ops hne]
        exact ih q
      · rw [run_queue_pop_ok q ops hne]
        simp only [pop1_ok q hne]
        simpa using ih _

/-- C2: for every state reachable from a successful queue_init with uint16
arguments by any sequence of push/pop calls, count <= capacity, head <
capacity and tail < capacity hold (count >= 0 holds trivially for a
natural-number count); moreover on any state whatsoever queue_push never
returns QUEUE_OK when count equals capacity, and queue_pop never returns
QUEUE_OK when count is zero. -/
theorem queue_reachable_invariant (qp : queue_t) (b : buffer_ref)
    (E C : Nat) (q0 : queue_t) (ops : List op_t)
    (hE : E ≤ 65535) (hC : C ≤ 65535)
    (hinit : queue_init (some qp) (some b) E C = (QUEUE_OK, some q0)) :
    (((run_queue q0 ops).1).count ≤ ((run_queue q0 ops).1).capacity
     ∧ ((run_queue q0 ops).1).head < ((run_queue q0 ops).1).capacity
     ∧ ((run_queue q0 ops).1).tail < ((run_queue q0 ops).1).capacity)
    ∧ (∀ (qv : queue_t) (item : Nat → Nat), qv.count = qv.capacity →
        (queue_push (some qv) (some item)).1 ≠ QUEUE_OK)
    ∧ (∀ (qv : queue_t) (out : Nat → Nat), qv.count = 0 →
        (queue_pop (some qv) (some out)).1 ≠ QUEUE_OK) := by
  obtain ⟨hq0, hE1, hC1⟩ := queue_init_ok_state qp b E C q0 hinit
  have hinv0 : queue_inv q0 := by
    subst hq0
    exact ⟨hC1, hC, hE, by simp, by simpa using hC1, by simpa using hC1, by simp⟩
  obtain ⟨_, _, _, h4, h5, h6, _⟩ := run_queue_inv ops q0 hinv0
  refine ⟨⟨h4, h5, h6⟩, ?_, ?_⟩
  · intro qv item h
    rw [queue_push_full_eq qv item (Nat.le_of_eq h.symm)]
    simp
  · intro qv out h
    rw [queue_pop_empty_eq qv out h]
    simp

/-- C2 witness: the invariant after one push on a freshly initialized
one-slot queue. -/
theorem queue_reachable_invariant_witness :
    ((run_queue ⟨0, fun _ => 0, 1, 1, 0, 0, 0⟩ [op_t.push (fun _ => 1)]).1).count
      ≤ ((run_queue ⟨0, fun _ => 0, 1, 1, 0, 0, 0⟩ [op_t.push (fun _ => 1)]).1).capacity :=
  (queue_reachable_invariant ⟨0, fun _ => 0, 9, 9, 9, 9, 9⟩ ⟨0, fun _ => 0⟩
    1 1 ⟨0, fun _ => 0, 1, 1, 0, 0, 0⟩ [op_t.push (fun _ => 1)]
    (by decide) (by decide) rfl).1.1

/-- C9: queue_push and queue_pop — whether they succeed or fail — never
modify the stored buffer pointer, the element size or the capacity field;
and starting from any successful queue_init the capacity stays positive
along every run, so the `% capacity` operations inside queue_push and
queue_pop never divide by zero at any reachable call. -/
theorem queue_config_frame :
    (∀ (qv : queue_t) (item : Nat → Nat) (qv' : queue_t),
        (queue_push (some qv) (some item)).2 = some qv' →
        qv'.buffer = qv.buffer
        ∧ qv'.buffer_element_size = qv.buffer_element_size
        ∧ qv'.capacity = qv.capacity)
    ∧ (∀ (qv : queue_t) (out : Nat → Nat) (qv' : queue_t),
        (queue_pop (some qv) (some out)).2.1 = some qv' →
        qv'.buffer = qv.buffer
        ∧ qv'.buffer_element_size = qv.buffer_element_size
        ∧ qv'.capacity = qv.capacity)
    ∧ (∀ (qp : queue_t) (b : buffer_ref) (E C : Nat) (q0 : queue_t),
        queue_init (some qp) (some b) E C = (QUEUE_OK, some q0) →
        ∀ ops : List op_t, 0 < ((run_queue q0 ops).1).capacity) := by
  refine ⟨?_, ?_, ?_⟩
  · intro qv item qv' h
    by_cases hful : qv.capacity ≤ qv.count
    · rw [queue_push_full_eq qv item hful] at h
      simp only [Option.some.injEq] at h
      subst h
      exact ⟨rfl, rfl, rfl⟩
    · rw [queue_push_ok_eq qv item (by omega)] at h
      simp only [Option.some.injEq] at h
      subst h
      exact ⟨rfl, rfl, rfl⟩
  · intro qv out qv' h
    by_cases hemp : qv.count = 0
    · rw [queue_pop_empty_eq qv out hemp] at h
      simp only [Option.some.injEq] at h
      subst h
      exact ⟨rfl, rfl, rfl⟩
    · rw [queue_pop_ok_eq qv out hemp] at h
      simp only [Option.some.injEq] at h
      subst h
      exact ⟨rfl, rfl, rfl⟩
  · intro qp b E C q0 hinit ops
    obtain ⟨hq0, _, hC1⟩ := queue_init_ok_state qp b E C q0 hinit
    have := (run_queue_config ops q0).2.2
    rw [this, hq0]
    exact hC1

/-- C9 witness: a failing push on a concrete full queue hands back a state
whose element-size field is the original 3. -/
theorem queue_config_frame_witness :
    (queue_t.mk 0 (fun _ => 0) 3 1 0 0 1).buffer_element_size = 3 :=
  (queue_config_frame.1 ⟨0, fun _ => 0, 3, 1, 0, 0, 1⟩ (fun _ => 0)
    ⟨0, fun _ => 0, 3, 1, 0, 0, 1⟩ rfl).2.1

/-- Helper: a byte address inside a foreign slot is untouched by the push
copy into slot `t`. -/
theorem copy_slot_other (mem item : Nat → Nat) (E t s i : Nat)
    (hi : i < E) (hst : s ≠ t) :
    copy_bytes mem (t * E) item E (s * E + i) = mem (s * E + i) := by
  rw [copy_bytes_eval, if_neg]
  rintro ⟨ha, hb⟩
  exact hst (slot_addr_eq s t i E hi ha hb)

/-- Helper: a byte address inside slot `t` receives the pushed byte. -/
theorem copy_slot_self (mem item : Nat → Nat) (E t i : Nat) (hi : i < E) :
    copy_bytes mem (t * E) item E (t * E + i) = item i := by
  rw [copy_bytes_eval, if_pos ⟨Nat.le_add_right _ _, by omega⟩]
  congr 1
  omega

/-- Helper: a successful push appends exactly the pushed byte vector to the
abstract queue contents. -/
theorem absQueue_push1 (q : queue_t) (item : Nat → Nat)
    (hinv : queue_inv q) (hlt : q.count < q.capacity) :
    absQueue (push1 q item)
      = absQueue q ++ [itemBytes q.buffer_element_size item] := by
  obtain ⟨h1, h2, h3, h4, h5, h6, h7⟩ := hinv
  rw [push1_ok q item hlt]
  have e1 : (q.count + 1) % 65536 = q.count + 1 := Nat.mod_eq_of_lt (by omega)
  have eoff : slot_offset q.tail q.buffer_element_size
      = q.tail * q.buffer_element_size := slot_offset_mul _ _ (by omega) h3
  unfold absQueue slotBytes itemBytes
  simp only [e1, eoff]
  rw [List.range_succ, List.map_append]
  congr 1
  · -- the elements already stored sit in slots other than tail
    apply List.map_congr_left
    intro k hk
    rw [List.mem_range] at hk
    have hslot : (q.head + k) % q.capacity ≠ q.tail := by
      rw [h7]
      exact mod_shift_ne q.head k q.count q.capacity hk (by omega)
    apply List.map_congr_left
    intro i hi
    rw [List.mem_range] at hi
    exact copy_slot_other q.mem item q.buffer_element_size q.tail
      ((q.head + k) % q.capacity) i hi hslot
  · -- the new element lands in slot tail and reads back as the item bytes
    simp only [List.map_cons, List.map_nil, List.cons.injEq, and_true]
    have hslot : (q.head + q.count) % q.capacity = q.tail := h7.symm
    rw [hslot]
    apply List.map_congr_left
    intro i hi
    rw [List.mem_range] at hi
    exact copy_slot_self q.mem item q.buffer_element_size q.tail i hi

/-- Helper: a successful pop removes exactly the head byte vector from the
abstract queue contents and returns it. -/
theorem absQueue_pop1 (q : queue_t)
    (hinv : queue_inv q) (hne : q.count ≠ 0) :
    absQueue q
      = itemBytes q.buffer_element_size (popOut q) :: absQueue (pop1 q) := by
  obtain ⟨h1, h2, h3, h4, h5, h6, h7⟩ := hinv
  rw [pop1_ok q hne, popOut_ok q hne]
  have e1 : (q.count - 1) % 65536 = q.count - 1 := Nat.mod_eq_of_lt (by omega)
  have e3 : ((q.head + 1) % q.capacity) % 65536 = (q.head + 1) % q.capacity :=
    Nat.mod_eq_of_lt (Nat.lt_of_lt_of_le (Nat.mod_lt _ (by omega)) (by omega))
  have eoff : slot_offset q.head q.buffer_element_size
      = q.head * q.buffer_element_size := slot_offset_mul _ _ (by omega) h3
  unfold absQueue slotBytes itemBytes
  simp only [e1, e3, eoff]
  have hsplit : q.count = (q.count - 1) + 1 := by omega
  rw [hsplit, List.range_succ_eq_map, List.map_cons]
  congr 1
  · -- the popped bytes are the bytes of the head slot
    rw [Nat.add_zero, Nat.mod_eq_of_lt h5]
    apply List.map_congr_left
    intro i hi
    rw [List.mem_range] at hi
    rw [copy_bytes_eval, if_pos ⟨Nat.zero_le i, by omega⟩]
    simp
  · -- the remaining elements shift down by one slot position
    rw [List.map_map]
    apply List.map_congr_left
    intro k hk
    rw [List.mem_range] at hk
    have : ((q.head + 1) % q.capacity + k) % q.capacity
        = (q.head + Nat.succ k) % q.capacity := by
      rw [Nat.mod_add_mod]
      congr 1
      omega
    simp only [Function.comp]
    rw [this]

/-- Helper: the FIFO conservation equation — along any run, the popped
byte vectors followed by the remaining abstract contents equal the initial
abstract contents followed by the successfully pushed byte vectors. -/
theorem run_queue_fifo (ops : List op_t) :
    ∀ q : queue_t, queue_inv q →
      (run_queue q ops).2.2 ++ absQueue (run_queue q ops).1
        = absQueue q ++ (run_queue q ops).2.1 := by
  induction ops with
  | nil =>
    intro q h
    simp [run_queue]
  | cons op ops ih =>
    intro q h
    cases op with
    | push item =>
      by_cases hlt : q.count < q.capacity
      · rw [run_queue_push_ok q item ops hlt]
        have habs := absQueue_push1 q item h hlt
        calc (run_queue (push1 q item) ops).2.2
              ++ absQueue (run_queue (push1 q item) ops).1
            = absQueue (push1 q item) ++ (run_queue (push1 q item) ops).2.1 :=
              ih _ (push1_inv q item h hlt)
          _ = absQueue q ++ (itemBytes q.buffer_element_size item
                :: (run_queue (push1 q item) ops).2.1) := by
              rw [habs, List.append_assoc, List.singleton_append]
      · rw [run_queue_push_full q item ops (by omega)]
        exact ih q h
    | pop =>
      by_cases hne : q.count = 0
      · rw [run_queue_pop_empty q ops hne]
        exact ih q h
      · rw [run_queue_pop_ok q ops hne]
        have habs := absQueue_pop1 q h hne
        calc (itemBytes q.buffer_element_size (popOut q)
                :: (run_queue (pop1 q) ops).2.2)
              ++ absQueue (run_queue (pop1 q) ops).1
            = itemBytes q.buffer_element_size (popOut q)
                :: (absQueue (pop1 q) ++ (run_queue (pop1 q) ops).2.1) := by
              rw [List.cons_append, ih _ (pop1_inv q h hne)]
          _ = absQueue q ++ (run_queue (pop1 q) ops).2.1 := by
              rw [habs, List.cons_append]

/-- Helper: every byte vector recorded along a run — pushed or popped — has
the queue's element size as its length. -/
theorem run_queue_lengths (ops : List op_t) :
    ∀ q : queue_t,
      (∀ v ∈ (run_queue q ops).2.1, v.length = q.buffer_element_size)
      ∧ (∀ v ∈ (run_queue q ops).2.2, v.length = q.buffer_element_size) := by
  induction ops with
  | nil =>
    intro q
    simp [run_queue]
  | cons op ops ih =>
    intro q
    cases op with
    | push item =>
      by_cases hlt : q.count < q.capacity
      · rw [run_queue_push_ok q item ops hlt]
        have hE : (push1 q item).buffer_element_size = q.buffer_element_size := by
          rw [push1_ok q item hlt]
        obtain ⟨ha, hb⟩ := ih (push1 q item)
        rw [hE] at ha hb
        refine ⟨?_, ?_⟩
        · intro v hv
          rcases List.mem_cons.mp hv with h | h
          · subst h
            simp [itemBytes]
          · exact ha v h
        · intro v hv
          exact hb v hv
      · rw [run_queue_push_full q item ops (by omega)]
        exact ih q
    | pop =>
      by_cases hne : q.count = 0
      · rw [run_queue_pop_empty q ops hne]
        exact ih q
      · rw [run_queue_pop_ok q ops hne]
        have hE : (pop1 q).buffer_element_size = q.buffer_element_size := by
          rw [pop1_ok q hne]
        obtain ⟨ha, hb⟩ := ih (pop1 q)
        rw [hE] at ha hb
        refine ⟨?_, ?_⟩
        · intro v hv
          exact ha v hv
        · intro v hv
          rcases List.mem_cons.mp hv with h | h
          · subst h
            simp [itemBytes]
          · exact hb v h

/-- C1: FIFO ordering with wraparound and byte preservation.  For any queue
freshly initialized with uint16 element size E and capacity C, and any
interleaved sequence of push/pop calls (wraparound included), the byte
vectors returned by the successful pops, followed by the bytes still
stored, are exactly the byte vectors given to the successful pushes, in
order; hence the popped sequence is the initial segment of the pushed
sequence, the two coincide whenever the queue has been drained, and every
transferred vector has exactly E bytes. -/
theorem queue_fifo_roundtrip (qp : queue_t) (b : buffer_ref) (E C : Nat)
    (q0 : queue_t) (ops : List op_t)
    (hE : E ≤ 65535) (hC : C ≤ 65535)
    (hinit : queue_init (some qp) (some b) E C = (QUEUE_OK, some q0)) :
    ((run_queue q0 ops).2.2 ++ absQueue (run_queue q0 ops).1
        = (run_queue q0 ops).2.1)
    ∧ ((run_queue q0 ops).2.2
        = ((run_queue q0 ops).2.1).take ((run_queue q0 ops).2.2).length)
    ∧ (((run_queue q0 ops).1).count = 0 →
        (run_queue q0 ops).2.2 = (run_queue q0 ops).2.1)
    ∧ (∀ v ∈ (run_queue q0 ops).2.1, v.length = E)
    ∧ (∀ v ∈ (run_queue q0 ops).2.2, v.length = E) := by
  obtain ⟨hq0, hE1, hC1⟩ := queue_init_ok_state qp b E C q0 hinit
  have hinv0 : queue_inv q0 := by
    subst hq0
    exact ⟨hC1, hC, hE, by simp, by simpa using hC1, by simpa using hC1, by simp⟩
  have hcons := run_queue_fifo ops q0 hinv0
  have habs0 : absQueue q0 = [] := by
    subst hq0
    simp [absQueue]
  rw [habs0, List.nil_append] at hcons
  have hEq : q0.buffer_element_size = E := by
    subst hq0
    rfl
  obtain ⟨hlen1, hlen2⟩ := run_queue_lengths ops q0
  rw [hEq] at hlen1 hlen2
  refine ⟨hcons, ?_, ?_, hlen1, hlen2⟩
  · rw [← hcons, List.take_left]
  · intro h0
    have hempty : absQueue (run_queue q0 ops).1 = [] := by
      unfold absQueue
      rw [h0]
      simp
    rw [← hcons, hempty, List.append_nil]

/-- C1 witness: a wraparound trace on a two-slot byte queue — three pushes
interleaved with pops — pops exactly the pushed vectors in order. -/
theorem queue_fifo_roundtrip_witness :
    (run_queue ⟨0, fun _ => 0, 1, 2, 0, 0, 0⟩
        [op_t.push (fun _ => 5), op_t.push (fun _ => 7), op_t.pop,
         op_t.push (fun _ => 9), op_t.pop, op_t.pop]).2.2
      ++ absQueue (run_queue ⟨0, fun _ => 0, 1, 2, 0, 0, 0⟩
        [op_t.push (fun _ => 5), op_t.push (fun _ => 7), op_t.pop,
         op_t.push (fun _ => 9), op_t.pop, op_t.pop]).1
      = (run_queue ⟨0, fun _ => 0, 1, 2, 0, 0, 0⟩
        [op_t.push (fun _ => 5), op_t.push (fun _ => 7), op_t.pop,
         op_t.push (fun _ => 9), op_t.pop, op_t.pop]).2.1 :=
  (queue_fifo_roundtrip ⟨0, fun _ => 0, 9, 9, 9, 9, 9⟩ ⟨0, fun _ => 0⟩ 1 2
    ⟨0, fun _ => 0, 1, 2, 0, 0, 0⟩
    [op_t.push (fun _ => 5), op_t.push (fun _ => 7), op_t.pop,
     op_t.push (fun _ => 9), op_t.pop, op_t.pop]
    (by decide) (by decide) rfl).1
